import Mathlib

/-!
Shallow embedding of the journals app (src/journals/models.py, views.py):
three content models (Note, Task, Event), a generic wrapper (JournalItem)
holding an owner, a one-character discriminator, a (content_type, object_id)
generic reference and an optional self-referential parent, plus the store
operations the views exercise (object creation, children.add, deletion).

Deletion semantics follow Django exactly:
  - ForeignKey fields declared with on_delete=CASCADE (owner, parent,
    content_type) cascade: deleting the referenced row deletes the
    referencing JournalItem rows, transitively.
  - The GenericForeignKey content_object is NOT a database foreign key: it
    carries no on_delete behaviour, and Django only cascades through it when
    the content model declares a GenericRelation back to the wrapper.
    models.py imports GenericRelation but declares none on Note, Task or
    Event, so deleting a content row touches no JournalItem; the wrapper's
    reference is left dangling and content_object then resolves to None.
  - objects.create performs no validation beyond database constraints:
    CharField choices are not enforced on save, and item_type is never
    compared with the referenced object's actual model.
-/

namespace Journals

/-- Note (models.py lines 6-10): id plus a title. -/
structure Note where
  id : Nat
  title : String
deriving DecidableEq

/-- Task (models.py lines 12-18): title, completed with default False,
nullable deadline. Timestamps are embedded as Nat. -/
structure Task where
  id : Nat
  title : String
  completed : Bool
  deadline : Option Nat
deriving DecidableEq

/-- Event (models.py lines 20-26): title and two nullable timestamps. -/
structure Event where
  id : Nat
  title : String
  start_date : Option Nat
  end_date : Option Nat
deriving DecidableEq

/-- The slice of django.contrib.auth's User that models.py touches:
primary key and username (used by JournalItem.__str__). -/
structure User where
  id : Nat
  username : String
deriving DecidableEq

/-- A ContentType row for one of the three content models: the value stored
in JournalItem.content_type by the GenericForeignKey machinery. -/
inductive CType where
  | note
  | task
  | event
deriving DecidableEq

/-- JournalItem (models.py lines 28-58). owner is a non-nullable ForeignKey
(null=False is Django's default), hence Nat and not Option Nat; parent is
declared null=True, hence Option Nat. item_type is the raw one-character
CharField: any Char can be stored, choices are not enforced on save. -/
structure JournalItem where
  id : Nat
  item_type : Char
  owner : Nat
  content_type : CType
  object_id : Nat
  parent : Option Nat
deriving DecidableEq

/-- The database: one table per model of models.py plus the auth users. -/
structure Store where
  users : List User
  notes : List Note
  tasks : List Task
  events : List Event
  items : List JournalItem
deriving DecidableEq

/-- A runtime content object, one of the three model variants the
GenericForeignKey can resolve to. -/
inductive ContentEntity where
  | ofNote (n : Note)
  | ofTask (t : Task)
  | ofEvent (e : Event)
deriving DecidableEq

/-- Runtime variant of a content object, rendered as the matching
discriminator character of JournalItem.ITEM_TYPES. -/
def variantOf : ContentEntity → Char
  | .ofNote _ => 'N'
  | .ofTask _ => 'T'
  | .ofEvent _ => 'E'

/-- ContentType row for a content object: what ContentType.objects.get_for_model
returns when the GenericForeignKey is assigned. -/
def ctypeOfContent : ContentEntity → CType
  | .ofNote _ => CType.note
  | .ofTask _ => CType.task
  | .ofEvent _ => CType.event

/-- Primary key of a content object. -/
def contentId : ContentEntity → Nat
  | .ofNote n => n.id
  | .ofTask t => t.id
  | .ofEvent e => e.id

/-- Title field shared by all three content models. -/
def contentTitle : ContentEntity → String
  | .ofNote n => n.title
  | .ofTask t => t.title
  | .ofEvent e => e.title

/-- Primary-key lookup in the notes table. -/
def findNote (s : Store) (i : Nat) : Option Note :=
  s.notes.find? (fun n => n.id == i)

/-- Primary-key lookup in the tasks table. -/
def findTask (s : Store) (i : Nat) : Option Task :=
  s.tasks.find? (fun t => t.id == i)

/-- Primary-key lookup in the events table. -/
def findEvent (s : Store) (i : Nat) : Option Event :=
  s.events.find? (fun e => e.id == i)

/-- Primary-key lookup in the users table. -/
def findUser (s : Store) (i : Nat) : Option User :=
  s.users.find? (fun u => u.id == i)

/-- Note.objects.create(title=...) as called in views.py line 25. -/
def createNote (s : Store) (i : Nat) (title : String) : Store × Note :=
  let n : Note := { id := i, title := title }
  ({ s with notes := s.notes ++ [n] }, n)

/-- Task.objects.create(title=...) as called in views.py line 23: completed
takes its declared default False and deadline its null default. -/
def createTask (s : Store) (i : Nat) (title : String) : Store × Task :=
  let t : Task := { id := i, title := title, completed := false, deadline := none }
  ({ s with tasks := s.tasks ++ [t] }, t)

/-- Event.objects.create(title=...) as called in views.py line 28: both
nullable timestamps default to null. -/
def createEvent (s : Store) (i : Nat) (title : String) : Store × Event :=
  let e : Event := { id := i, title := title, start_date := none, end_date := none }
  ({ s with events := s.events ++ [e] }, e)

/-- JournalItem.objects.create(content_object=c, item_type=ity, owner=uid)
(views.py lines 31-36). Assigning content_object stores
ContentType.objects.get_for_model(type(c)) into content_type and c's primary
key into object_id; item_type is stored as passed, with no comparison against
the actual variant of c. The owner column is a real ForeignKey, so the insert
fails (none) when no user row with that id exists; object_id has no database
foreign key, so the referenced content row is never checked. -/
def createJournalItem (s : Store) (jid uid : Nat) (ity : Char) (c : ContentEntity) :
    Option (Store × JournalItem) :=
  match findUser s uid with
  | none => none
  | some _ =>
    let j : JournalItem :=
      { id := jid, item_type := ity, owner := uid,
        content_type := ctypeOfContent c, object_id := contentId c, parent := none }
    some ({ s with items := s.items ++ [j] }, j)

/-- GenericForeignKey resolution (models.py line 51): fetch the row of the
model named by content_type at primary key object_id. The discriminator field
item_type plays no part. Django returns None when the row is gone (dangling
reference); none embeds that. -/
def resolveContent (s : Store) (j : JournalItem) : Option ContentEntity :=
  match j.content_type with
  | CType.note => (findNote s j.object_id).map ContentEntity.ofNote
  | CType.task => (findTask s j.object_id).map ContentEntity.ofTask
  | CType.event => (findEvent s j.object_id).map ContentEntity.ofEvent

/-- A dangling generic reference: the row named by (content_type, object_id)
is absent from its table. -/
def referenceDangling (s : Store) (j : JournalItem) : Bool :=
  match j.content_type with
  | CType.note => (findNote s j.object_id).isNone
  | CType.task => (findTask s j.object_id).isNone
  | CType.event => (findEvent s j.object_id).isNone

/-- ITEM_TYPES (models.py lines 33-38): discriminator characters paired with
their display labels. -/
def ITEM_TYPES : List (Char × String) :=
  [('N', "Note"), ('T', "Task"), ('E', "Event")]

/-- The label comprehension of JournalItem.__str__ (models.py line 57):
[item[1] for item in ITEM_TYPES if item[0]==self.item_type][0]. Indexing an
empty filter result raises IndexError; none embeds that failure. -/
def itemTypeLabel (c : Char) : Option String :=
  ((ITEM_TYPES.filter (fun p => p.1 == c)).map (fun p => p.2)).head?

/-- JournalItem.__str__ (models.py lines 55-58). Partial: the label lookup
fails outside {N, T, E}, owner.username fails when the owner row is missing,
and content_object.title fails (AttributeError on None) when the generic
reference is dangling; none embeds each failure. -/
def strJournalItem (s : Store) (j : JournalItem) : Option String :=
  match itemTypeLabel j.item_type with
  | none => none
  | some lbl =>
    match findUser s j.owner with
    | none => none
    | some u =>
      match resolveContent s j with
      | none => none
      | some c =>
        some (u.username ++ " - JournalItem #" ++ toString j.id ++ " - "
          ++ lbl ++ ": " ++ contentTitle c)

/-- The row update performed by parent.children.add(child) (views.py lines
48 and 59): set child.parent = parent and save. -/
def attachFn (parentId childId : Nat) (x : JournalItem) : JournalItem :=
  if x.id == childId then { x with parent := some parentId } else x

/-- Attach(parent, child): the reverse-ForeignKey manager's add, which sets
child.parent and saves. No cycle check of any kind is performed. -/
def attach (s : Store) (parentId childId : Nat) : Store :=
  { s with items := s.items.map (attachFn parentId childId) }

/-- ListChildren(item): item.children.all(), the reverse accessor of the
parent ForeignKey (related_name="children", models.py line 53). -/
def listChildren (s : Store) (p : Nat) : List JournalItem :=
  (s.items.filter (fun x => x.parent == some p))

/-- Parent id of the JournalItem row with the given id, if any. -/
def parentOf (s : Store) (i : Nat) : Option Nat :=
  (s.items.find? (fun x => x.id == i)).bind (fun x => x.parent)

/-- One round of Django's delete collector over the parent ForeignKey
(on_delete=CASCADE, models.py line 53): every row whose parent is already
collected joins the collected set. -/
def cascadeStep (items : List JournalItem) (coll : List Nat) : List Nat :=
  coll ++ (items.filter (fun x =>
    match x.parent with
    | some q => coll.contains q
    | none => false)).map (fun x => x.id)

/-- Iterated collector rounds. -/
def cascadeN : Nat → List JournalItem → List Nat → List Nat
  | 0, _, coll => coll
  | n + 1, items, coll => cascadeN n items (cascadeStep items coll)

/-- item.delete(): Django's collector starts from the row itself and closes
under the parent-CASCADE relation (as many rounds as there are rows saturate
the collection), then deletes every collected row. -/
def deleteJournalItem (s : Store) (i : Nat) : Store :=
  let coll := cascadeN s.items.length s.items [i]
  { s with items := s.items.filter (fun x => !(coll.contains x.id)) }

/-- user.delete(): the owner ForeignKey (on_delete=CASCADE, models.py line
44) collects every JournalItem owned by the user, then the parent CASCADE
closes the collection over descendants; all collected rows are deleted
together with the user row. -/
def deleteUser (s : Store) (u : Nat) : Store :=
  let roots := (s.items.filter (fun x => x.owner == u)).map (fun x => x.id)
  let coll := cascadeN s.items.length s.items roots
  { s with users := s.users.filter (fun x => !(x.id == u)),
           items := s.items.filter (fun x => !(coll.contains x.id)) }

/-- note.delete(): removes the note row only. No table holds a ForeignKey to
Note and Note declares no GenericRelation, so nothing cascades; in
particular JournalItem rows whose generic reference names the note survive,
dangling. -/
def deleteNote (s : Store) (i : Nat) : Store :=
  { s with notes := s.notes.filter (fun n => !(n.id == i)) }

/-- task.delete(): same shape as deleteNote. -/
def deleteTask (s : Store) (i : Nat) : Store :=
  { s with tasks := s.tasks.filter (fun t => !(t.id == i)) }

/-- event.delete(): same shape as deleteNote. -/
def deleteEvent (s : Store) (i : Nat) : Store :=
  { s with events := s.events.filter (fun e => !(e.id == i)) }

/-- The content row is present in its table (what the views guarantee by
creating the content object before wrapping it). -/
def contentInStore (s : Store) (c : ContentEntity) : Bool :=
  match c with
  | .ofNote n => (findNote s n.id).isSome
  | .ofTask t => (findTask s t.id).isSome
  | .ofEvent e => (findEvent s e.id).isSome

/-- A list of row ids is a chain of parent links: each element's row has the
next element as its parent. Parent links are functional (one parent per
row), so any row that reaches another by following parents upward reaches it
along such a chain with no repeated id. -/
def isParentChain (s : Store) : List Nat → Bool
  | [] => true
  | [_] => true
  | a :: b :: rest => (parentOf s a == some b) && isParentChain s (b :: rest)

/-- Demo rows mirroring views.py: user, a note, a consistent wrapper (id 3)
and a wrapper whose discriminator deliberately disagrees with its generic
reference (id 4, item_type E over a Note row). -/
def demoUser : User := { id := 1, username := "alice" }

def demoNote : Note := { id := 1, title := "Avoid Main St." }

def demoJN : JournalItem :=
  { id := 3, item_type := 'N', owner := 1, content_type := CType.note,
    object_id := 1, parent := none }

def demoJmis : JournalItem :=
  { id := 4, item_type := 'E', owner := 1, content_type := CType.note,
    object_id := 1, parent := none }

def demoStore : Store :=
  { users := [demoUser], notes := [demoNote], tasks := [], events := [],
    items := [demoJN, demoJmis] }

/-- A store with a two-level parent chain (2 under 1) and an unrelated root 3. -/
def chainStore : Store :=
  { users := [demoUser], notes := [], tasks := [], events := [],
    items :=
      [ { id := 1, item_type := 'N', owner := 1, content_type := CType.note,
          object_id := 9, parent := none },
        { id := 2, item_type := 'N', owner := 1, content_type := CType.note,
          object_id := 9, parent := some 1 },
        { id := 3, item_type := 'N', owner := 1, content_type := CType.note,
          object_id := 9, parent := none } ] }

/-- Two attaches in opposite directions over chainStore's roots 1 and 3. -/
def cycleStore : Store := attach (attach chainStore 1 3) 3 1

/-- Mapping a function over an option leaves emptiness unchanged. -/
theorem isNone_map_eq {α β : Type} (f : α → β) (o : Option α) :
    (o.map f).isNone = o.isNone := by
  cases o <;> rfl

/-- Generic helper: a find? with a predicate finds nothing in a list
filtered down to the predicate's complement. -/
theorem find?_filter_not {α : Type} (p : α → Bool) :
    ∀ l : List α, (l.filter (fun x => !(p x))).find? p = none := by
  intro l
  induction l with
  | nil => rfl
  | cons x t ih =>
    cases hx : p x with
    | true =>
      have hrw : (x :: t).filter (fun y => !(p y)) = t.filter (fun y => !(p y)) := by
        simp [List.filter_cons, hx]
      rw [hrw]
      exact ih
    | false =>
      have hrw : (x :: t).filter (fun y => !(p y)) = x :: t.filter (fun y => !(p y)) := by
        simp [List.filter_cons, hx]
      rw [hrw, List.find?_cons_of_neg _ (by simp [hx])]
      exact ih

/-- C9: Creating a Task without specifying the completion flag yields
completed = false and deadline absent; createEvent likewise leaves both
timestamps absent. -/
theorem createTask_createEvent_defaults (s : Store) (i : Nat) (title : String) :
    (createTask s i title).2.completed = false
    ∧ (createTask s i title).2.deadline = none
    ∧ (createEvent s i title).2.start_date = none
    ∧ (createEvent s i title).2.end_date = none :=
  ⟨rfl, rfl, rfl, rfl⟩

/-- C7: Attach performs no cycle check: attaching 3 under 1 and then 1 under
3 yields a store whose parent relation has the two-cycle 1-3, and neither
attach was rejected (attach is total, and every row survives: the item table
keeps its length). -/
theorem attach_creates_cycle_unrejected :
    parentOf cycleStore 1 = some 3 ∧ parentOf cycleStore 3 = some 1
    ∧ cycleStore.items.length = chainStore.items.length := by
  decide

/-- C2 counterexample: deleting note 1 from demoStore removes the note row,
yet the JournalItem demoJN whose generic reference names that note is still
present afterwards (and its reference now resolves to nothing). -/
theorem c2_deleteNote_keeps_referencing_item :
    demoJN ∈ (deleteNote demoStore 1).items
    ∧ demoJN.content_type = CType.note ∧ demoJN.object_id = 1
    ∧ findNote (deleteNote demoStore 1) 1 = none
    ∧ resolveContent (deleteNote demoStore 1) demoJN = none := by
  decide

/-- C2 amended: deleting a content row (note, task or event) deletes no
JournalItem: the item table is untouched, and any JournalItem whose generic
reference named the deleted row is left dangling, its resolution returning
none. -/
theorem deleteContentEntity_no_cascade (s : Store) (i : Nat) :
    (deleteNote s i).items = s.items
    ∧ (deleteTask s i).items = s.items
    ∧ (deleteEvent s i).items = s.items
    ∧ (∀ j : JournalItem, j.content_type = CType.note → j.object_id = i →
        resolveContent (deleteNote s i) j = none)
    ∧ (∀ j : JournalItem, j.content_type = CType.task → j.object_id = i →
        resolveContent (deleteTask s i) j = none)
    ∧ (∀ j : JournalItem, j.content_type = CType.event → j.object_id = i →
        resolveContent (deleteEvent s i) j = none) := by
  refine ⟨rfl, rfl, rfl, ?_, ?_, ?_⟩
  · intro j h1 h2
    simp only [resolveContent, h1, h2, findNote, deleteNote]
    rw [find?_filter_not]
    rfl
  · intro j h1 h2
    simp only [resolveContent, h1, h2, findTask, deleteTask]
    rw [find?_filter_not]
    rfl
  · intro j h1 h2
    simp only [resolveContent, h1, h2, findEvent, deleteEvent]
    rw [find?_filter_not]
    rfl

/-- C6 counterexample: demoJmis carries discriminator E while its stored
generic reference names Note row 1; resolution nevertheless succeeds,
returning the Note, whose variant N disagrees with the discriminator. -/
theorem c6_inconsistent_discriminator_resolves :
    demoJmis.item_type = 'E' ∧ demoJmis.content_type = CType.note
    ∧ resolveContent demoStore demoJmis = some (ContentEntity.ofNote demoNote)
    ∧ (variantOf (ContentEntity.ofNote demoNote) == demoJmis.item_type) = false := by
  decide

/-- C6 amended: resolution fails exactly when the generic reference is
dangling; the discriminator is never consulted, so changing item_type to any
character leaves the result unchanged and an inconsistent discriminator does
not make resolution fail. -/
theorem resolveContent_none_iff_dangling (s : Store) (j : JournalItem) (t : Char) :
    (resolveContent s j).isNone = referenceDangling s j
    ∧ resolveContent s { j with item_type := t } = resolveContent s j := by
  constructor
  · cases hct : j.content_type <;>
      simp only [resolveContent, referenceDangling, hct, isNone_map_eq]
  · rfl

/-- C5 counterexample: wrapping Note row 1 with the deliberately mismatched
discriminator E succeeds silently: create returns a row storing item_type E
over a Note reference, and no error of any kind exists in the code. -/
theorem c5_mismatched_create_succeeds :
    ((createJournalItem demoStore 11 1 'E' (ContentEntity.ofNote demoNote)).map
      (fun r => (r.2.item_type, r.2.content_type))) = some ('E', CType.note) := by
  decide

/-- C5 amended: whenever the owner row exists, creation succeeds for every
discriminator character, storing it verbatim next to the reference derived
from the actual content object; no TypeMismatch check or error exists. -/
theorem createJournalItem_no_typeMismatch (s : Store) (jid uid : Nat)
    (ity : Char) (c : ContentEntity) (hu : (findUser s uid).isSome = true) :
    ∃ r, createJournalItem s jid uid ity c = some r
      ∧ r.2.item_type = ity ∧ r.2.content_type = ctypeOfContent c := by
  cases h : findUser s uid with
  | none => rw [h] at hu; simp at hu
  | some u =>
    simp only [createJournalItem, h]
    exact ⟨_, rfl, rfl, rfl⟩

/-- Witness for C5's amended theorem at the mismatched concrete input. -/
theorem createJournalItem_no_typeMismatch_inst :
    ∃ r, createJournalItem demoStore 11 1 'E' (ContentEntity.ofNote demoNote) = some r
      ∧ r.2.item_type = 'E'
      ∧ r.2.content_type = ctypeOfContent (ContentEntity.ofNote demoNote) :=
  createJournalItem_no_typeMismatch demoStore 11 1 'E'
    (ContentEntity.ofNote demoNote) (by decide)

/-- C1 counterexample: the create operation accepts discriminator E over a
Note content object; the created item resolves to a content entity of
variant N, which differs from the stored discriminator E. -/
theorem c1_create_mismatch_resolves_note :
    ((createJournalItem demoStore 10 1 'E' (ContentEntity.ofNote demoNote)).map
      (fun r => (r.2.item_type, (resolveContent r.1 r.2).map variantOf)))
      = some ('E', some 'N')
    ∧ (('E' : Char) == 'N') = false := by
  constructor
  · decide
  · decide

/-- C1 amended: for an item created while the wrapped content row is
persisted and the owner exists, resolution succeeds and returns an entity
whose runtime variant matches the variant of the wrapped content object
(equivalently, the stored content_type); it matches item_type only when the
caller happened to pass a consistent discriminator, which nothing enforces. -/
theorem createJournalItem_resolve_matches_content (s : Store) (jid uid : Nat)
    (ity : Char) (c : ContentEntity) (hu : (findUser s uid).isSome = true)
    (hc : contentInStore s c = true) :
    ∃ r, createJournalItem s jid uid ity c = some r
      ∧ ∃ c2, resolveContent r.1 r.2 = some c2 ∧ variantOf c2 = variantOf c
        ∧ r.2.content_type = ctypeOfContent c ∧ r.2.item_type = ity := by
  cases h : findUser s uid with
  | none => rw [h] at hu; simp at hu
  | some u =>
    simp only [createJournalItem, h]
    refine ⟨_, rfl, ?_⟩
    cases c with
    | ofNote n =>
      simp only [contentInStore, Option.isSome_iff_exists] at hc
      obtain ⟨n2, hn2⟩ := hc
      refine ⟨ContentEntity.ofNote n2, ?_, rfl, rfl, rfl⟩
      simp only [findNote] at hn2
      simp only [resolveContent, ctypeOfContent, contentId, findNote]
      rw [hn2]
      rfl
    | ofTask t =>
      simp only [contentInStore, Option.isSome_iff_exists] at hc
      obtain ⟨t2, ht2⟩ := hc
      refine ⟨ContentEntity.ofTask t2, ?_, rfl, rfl, rfl⟩
      simp only [findTask] at ht2
      simp only [resolveContent, ctypeOfContent, contentId, findTask]
      rw [ht2]
      rfl
    | ofEvent e =>
      simp only [contentInStore, Option.isSome_iff_exists] at hc
      obtain ⟨e2, he2⟩ := hc
      refine ⟨ContentEntity.ofEvent e2, ?_, rfl, rfl, rfl⟩
      simp only [findEvent] at he2
      simp only [resolveContent, ctypeOfContent, contentId, findEvent]
      rw [he2]
      rfl

/-- Everything already collected stays collected after one collector round. -/
theorem mem_cascadeStep_of_mem {a : Nat} (items : List JournalItem)
    {coll : List Nat} (h : a ∈ coll) : a ∈ cascadeStep items coll :=
  List.mem_append_left _ h

/-- Everything already collected stays collected after any number of rounds. -/
theorem mem_cascadeN_of_mem {a : Nat} (n : Nat) (items : List JournalItem)
    {coll : List Nat} (h : a ∈ coll) : a ∈ cascadeN n items coll := by
  induction n generalizing coll with
  | zero => exact h
  | succ n ih => exact ih (mem_cascadeStep_of_mem items h)

/-- A row whose parent is collected is collected after one more round. -/
theorem mem_cascadeStep_of_parent {items : List JournalItem} {coll : List Nat}
    {x : JournalItem} {q : Nat} (hx : x ∈ items) (hp : x.parent = some q)
    (hq : q ∈ coll) : x.id ∈ cascadeStep items coll := by
  refine List.mem_append_right _ (List.mem_map.2 ⟨x, List.mem_filter.2 ⟨hx, ?_⟩, rfl⟩)
  rw [hp]
  exact List.elem_iff.2 hq

/-- One collector round commutes past the iterated rounds. -/
theorem cascadeStep_cascadeN {a : Nat} (n : Nat) (items : List JournalItem)
    (coll : List Nat) (h : a ∈ cascadeStep items (cascadeN n items coll)) :
    a ∈ cascadeN n items (cascadeStep items coll) := by
  induction n generalizing coll with
  | zero => exact h
  | succ n ih => exact ih (cascadeStep items coll) h

/-- More fuel never loses a collected id (one extra round). -/
theorem mem_cascadeN_succ {a : Nat} {n : Nat} {items : List JournalItem}
    {coll : List Nat} (h : a ∈ cascadeN n items coll) :
    a ∈ cascadeN (n + 1) items coll := by
  induction n generalizing coll with
  | zero => exact mem_cascadeStep_of_mem items h
  | succ n ih => exact ih h

/-- More fuel never loses a collected id. -/
theorem mem_cascadeN_of_le {a m n : Nat} {items : List JournalItem}
    {coll : List Nat} (hmn : m ≤ n) (h : a ∈ cascadeN m items coll) :
    a ∈ cascadeN n items coll := by
  induction hmn with
  | refl => exact h
  | step _ ih => exact mem_cascadeN_succ ih

/-- Every id on a parent chain ending at i is collected in as many rounds as
the chain has links. -/
theorem chain_mem_cascade (s : Store) (i : Nat) :
    ∀ c : List Nat, isParentChain s c = true → c.getLast? = some i →
      ∀ a ∈ c, a ∈ cascadeN (c.length - 1) s.items [i] := by
  intro c
  induction c with
  | nil => intro _ hl; simp at hl
  | cons a t ih =>
    cases t with
    | nil =>
      intro _ hl b hb
      simp only [List.getLast?_singleton, Option.some.injEq] at hl
      simp only [List.mem_singleton] at hb
      subst hl
      subst hb
      simp [cascadeN]
    | cons b' t' =>
      intro hch hl x hx
      have hch' := hch
      simp only [isParentChain, Bool.and_eq_true, beq_iff_eq] at hch'
      obtain ⟨hpa, hrest⟩ := hch'
      have hl' : (b' :: t').getLast? = some i := by
        simpa [List.getLast?_cons_cons] using hl
      have hlen : (a :: b' :: t').length - 1 = ((b' :: t').length - 1) + 1 := by
        simp
      rcases List.mem_cons.1 hx with rfl | hx'
      · -- the head: its parent b' is collected one round earlier
        have hb' : b' ∈ cascadeN ((b' :: t').length - 1) s.items [i] :=
          ih hrest hl' b' (List.mem_cons_self b' t')
        have hfind : ∃ y, s.items.find? (fun z => z.id == x) = some y ∧ y.parent = some b' := by
          cases hf : s.items.find? (fun z => z.id == x) with
          | none => simp [parentOf, hf] at hpa
          | some y => exact ⟨y, rfl, by simpa [parentOf, hf] using hpa⟩
        obtain ⟨y, hy, hyp⟩ := hfind
        have hymem : y ∈ s.items := List.mem_of_find?_eq_some hy
        have hyid : y.id = x := by
          have := List.find?_some hy
          simpa using this
        have hstep : x ∈ cascadeStep s.items (cascadeN ((b' :: t').length - 1) s.items [i]) := by
          rw [← hyid]
          exact mem_cascadeStep_of_parent hymem hyp hb'
        have := cascadeStep_cascadeN ((b' :: t').length - 1) s.items [i] hstep
        rw [hlen]
        exact this
      · -- an id of the tail chain: collected a round earlier already
        have := ih hrest hl' x hx'
        rw [hlen]
        exact mem_cascadeN_succ this

/-- Every id on a parent chain except possibly the last is the id of a row of
the item table. -/
theorem chain_dropLast_ids (s : Store) :
    ∀ c : List Nat, isParentChain s c = true →
      ∀ a ∈ c.dropLast, a ∈ s.items.map (fun x => x.id) := by
  intro c
  induction c with
  | nil => intro _ a ha; simp at ha
  | cons x t ih =>
    cases t with
    | nil => intro _ a ha; simp at ha
    | cons b' t' =>
      intro hch a ha
      have hch' := hch
      simp only [isParentChain, Bool.and_eq_true, beq_iff_eq] at hch'
      obtain ⟨hpa, hrest⟩ := hch'
      have hdl : (x :: b' :: t').dropLast = x :: (b' :: t').dropLast := rfl
      rw [hdl] at ha
      rcases List.mem_cons.1 ha with rfl | ha'
      · have hfind : ∃ y, s.items.find? (fun z => z.id == a) = some y := by
          cases hf : s.items.find? (fun z => z.id == a) with
          | none => simp [parentOf, hf] at hpa
          | some y => exact ⟨y, rfl⟩
        obtain ⟨y, hy⟩ := hfind
        have hymem : y ∈ s.items := List.mem_of_find?_eq_some hy
        have hyid : y.id = a := by
          have := List.find?_some hy
          simpa using this
        exact List.mem_map.2 ⟨y, hymem, hyid⟩
      · exact ih hrest a ha'

/-- C3: deleting a JournalItem removes every transitive descendant: for any
duplicate-free parent chain running from a row x up to the deleted row i, no
row with id x survives the delete. Parent links are functional, so every row
that reaches i by following parents upward does so along such a
duplicate-free chain, and the statement covers all descendants (and i
itself, via the one-element chain). -/
theorem deleteJournalItem_removes_descendants (s : Store) (i x : Nat)
    (c : List Nat) (hch : isParentChain s c = true) (hhd : c.head? = some x)
    (hlt : c.getLast? = some i) (hnd : c.Nodup) :
    ((deleteJournalItem s i).items.all (fun j => j.id != x)) = true := by
  have hx : x ∈ c := by
    cases c with
    | nil => simp at hhd
    | cons y t =>
      simp only [List.head?_cons, Option.some.injEq] at hhd
      rw [← hhd]
      exact List.mem_cons_self y t
  have h1 : x ∈ cascadeN (c.length - 1) s.items [i] :=
    chain_mem_cascade s i c hch hlt x hx
  have hlen : c.length - 1 ≤ s.items.length := by
    have hsub : c.dropLast ⊆ s.items.map (fun z => z.id) := by
      intro a ha
      exact chain_dropLast_ids s c hch a ha
    have hnd' : c.dropLast.Nodup := List.Nodup.sublist (List.dropLast_sublist c) hnd
    have hle := (List.Nodup.subperm hnd' hsub).length_le
    rw [List.length_dropLast, List.length_map] at hle
    exact hle
  have h2 : x ∈ cascadeN s.items.length s.items [i] :=
    mem_cascadeN_of_le hlen h1
  rw [List.all_eq_true]
  intro j hj
  have hj' : j ∈ s.items ∧
      (!((cascadeN s.items.length s.items [i]).contains j.id)) = true := by
    simpa [deleteJournalItem] using List.mem_filter.1 hj
  have hne : j.id ≠ x := by
    intro he
    have hcontra := hj'.2
    rw [he] at hcontra
    simp [h2] at hcontra
  simpa using hne

/-- Witness for C3 at a concrete store: chain [2, 1] runs from row 2 up to
row 1; after deleting row 1 no row with id 2 survives. -/
theorem deleteJournalItem_removes_descendants_inst :
    ((deleteJournalItem chainStore 1).items.all (fun j => j.id != 2)) = true :=
  deleteJournalItem_removes_descendants chainStore 1 2 [2, 1]
    (by decide) (by decide) (by decide) (by decide)

/-- C8: deleting a user removes every JournalItem whose owner references
that user (the owner column itself is non-nullable, embedded as Nat rather
than Option Nat, mirroring the ForeignKey's null=False default). -/
theorem deleteUser_removes_owned_items (s : Store) (u : Nat) :
    ((deleteUser s u).items.all (fun j => !(j.owner == u))) = true := by
  rw [List.all_eq_true]
  intro j hj
  have hj' : j ∈ s.items ∧
      (!((cascadeN s.items.length s.items
          ((s.items.filter (fun x => x.owner == u)).map (fun x => x.id))).contains j.id)) = true := by
    simpa [deleteUser] using List.mem_filter.1 hj
  by_contra hbad
  have howner : (j.owner == u) = true := by
    cases hb : (j.owner == u) with
    | true => rfl
    | false => rw [hb] at hbad; simp at hbad
  have hroot : j.id ∈ (s.items.filter (fun x => x.owner == u)).map (fun x => x.id) :=
    List.mem_map.2 ⟨j, List.mem_filter.2 ⟨hj'.1, howner⟩, rfl⟩
  have hcoll := mem_cascadeN_of_mem s.items.length s.items hroot
  have hcontra := hj'.2
  simp [hcoll] at hcontra

/-- Witness for C1's amended theorem at a consistent concrete input. -/
theorem createJournalItem_resolve_matches_content_inst :
    ∃ r, createJournalItem demoStore 10 1 'N' (ContentEntity.ofNote demoNote) = some r
      ∧ ∃ c2, resolveContent r.1 r.2 = some c2
        ∧ variantOf c2 = variantOf (ContentEntity.ofNote demoNote)
        ∧ r.2.content_type = ctypeOfContent (ContentEntity.ofNote demoNote)
        ∧ r.2.item_type = 'N' :=
  createJournalItem_resolve_matches_content demoStore 10 1 'N'
    (ContentEntity.ofNote demoNote) (by decide) (by decide)

/-- The attach update never changes a row's id. -/
theorem attachFn_id (p c : Nat) (x : JournalItem) : (attachFn p c x).id = x.id := by
  unfold attachFn
  split <;> rfl

/-- When no row has id c, the children listing after an attach of c counts
no occurrence of c. -/
theorem count_attach_children_zero (p c : Nat) {l : List JournalItem}
    (h : c ∉ l.map (fun x => x.id)) :
    (((l.map (attachFn p c)).filter (fun x => x.parent == some p)).map
      (fun x => x.id)).count c = 0 := by
  rw [List.count_eq_zero]
  intro hc
  apply h
  rcases List.mem_map.1 hc with ⟨y, hy, hyid⟩
  rcases List.mem_map.1 (List.mem_of_mem_filter hy) with ⟨z, hz, rfl⟩
  refine List.mem_map.2 ⟨z, hz, ?_⟩
  rw [← attachFn_id p c z]
  exact hyid

/-- Core of C4's counting claim, stated over the raw item table: with
duplicate-free ids and the child row present, the rows whose parent points
at p after the attach carry the child's id exactly once. -/
theorem count_attach_children (p c : Nat) :
    ∀ l : List JournalItem, (l.map (fun x => x.id)).Nodup →
      c ∈ l.map (fun x => x.id) →
      (((l.map (attachFn p c)).filter (fun x => x.parent == some p)).map
        (fun x => x.id)).count c = 1 := by
  intro l
  induction l with
  | nil => intro _ hc; simp at hc
  | cons x t ih =>
    intro hnd hc
    rw [List.map_cons] at hnd hc
    have hnd' : (t.map (fun z => z.id)).Nodup := (List.nodup_cons.1 hnd).2
    have hxid : x.id ∉ t.map (fun z => z.id) := (List.nodup_cons.1 hnd).1
    by_cases hcx : c = x.id
    · -- the head is the child: it is re-parented and counted once
      have hbeq : (x.id == c) = true := beq_iff_eq.2 hcx.symm
      have hhd : attachFn p c x = { x with parent := some p } := by
        simp [attachFn, hbeq]
      have hzero : (((t.map (attachFn p c)).filter (fun z => z.parent == some p)).map
          (fun z => z.id)).count c = 0 :=
        count_attach_children_zero p c (fun hm => hxid (hcx ▸ hm))
      rw [List.map_cons, hhd]
      have hkeep : (({ x with parent := some p } : JournalItem).parent == some p) = true := by
        simp
      rw [List.filter_cons, if_pos hkeep]
      simp only [List.map_cons]
      have hhid : ({ x with parent := some p } : JournalItem).id = c := hcx.symm
      rw [hhid, List.count_cons_self, hzero]
    · -- the head is another row: its id differs from c either way
      have hne : (x.id == c) = false := by
        cases hb : (x.id == c) with
        | false => rfl
        | true => exact absurd (beq_iff_eq.1 hb) (fun he => hcx he.symm)
      have hct : c ∈ t.map (fun z => z.id) := by
        rcases List.mem_cons.1 hc with h1 | h2
        · exact absurd h1 hcx
        · exact h2
      have hhd : attachFn p c x = x := by
        simp [attachFn, hne]
      rw [List.map_cons, hhd, List.filter_cons]
      cases hkeep : (x.parent == some p) with
      | true =>
        rw [if_pos rfl]
        simp only [List.map_cons]
        rw [List.count_cons_of_ne hcx]
        exact ih hnd' hct
      | false =>
        rw [if_neg Bool.false_ne_true]
        exact ih hnd' hct

/-- Core of C4's parent claim: find? over the attached table returns the
child with parent set to p, as soon as some row carries the child's id. -/
theorem parentOf_attach_aux (p c : Nat) :
    ∀ l : List JournalItem, c ∈ l.map (fun x => x.id) →
      ((l.map (attachFn p c)).find? (fun x => x.id == c)).bind (fun x => x.parent) = some p := by
  intro l
  induction l with
  | nil => intro hc; simp at hc
  | cons x t ih =>
    intro hc
    rw [List.map_cons] at hc
    by_cases hcx : x.id = c
    · have hbeq : (x.id == c) = true := beq_iff_eq.2 hcx
      have hhd : attachFn p c x = { x with parent := some p } := by
        simp [attachFn, hbeq]
      rw [List.map_cons, hhd]
      rw [List.find?_cons_of_pos _ (by simpa using hbeq)]
      rfl
    · have hne : (x.id == c) = false := by
        cases hb : (x.id == c) with
        | false => rfl
        | true => exact absurd (beq_iff_eq.1 hb) hcx
      have hct : c ∈ t.map (fun z => z.id) := by
        rcases List.mem_cons.1 hc with h1 | h2
        · exact absurd h1.symm hcx
        · exact h2
      rw [List.map_cons]
      rw [List.find?_cons_of_neg _ (by rw [attachFn_id]; simp [hne])]
      exact ih hct

/-- C4: Attach(parent, child) sets the child's parent reference to the
parent, and immediately afterwards ListChildren(parent) contains the child's
id exactly once. Requires the child row to exist and the table's ids to be
duplicate-free (a primary-key invariant the database enforces). -/
theorem attach_listChildren_exactly_once (s : Store) (p c : Nat)
    (hnd : (s.items.map (fun x => x.id)).Nodup)
    (hc : c ∈ s.items.map (fun x => x.id)) :
    ((listChildren (attach s p c) p).map (fun x => x.id)).count c = 1
    ∧ parentOf (attach s p c) c = some p :=
  ⟨count_attach_children p c s.items hnd hc, parentOf_attach_aux p c s.items hc⟩

/-- Witness for C4 at a concrete store: attaching row 4 under row 3 of
demoStore lists 4 under 3 exactly once and sets its parent to 3. -/
theorem attach_listChildren_exactly_once_inst :
    ((listChildren (attach demoStore 3 4) 3).map (fun x => x.id)).count 4 = 1
    ∧ parentOf (attach demoStore 3 4) 4 = some 3 :=
  attach_listChildren_exactly_once demoStore 3 4 (by decide) (by decide)

/-- Characters outside the ITEM_TYPES table have no display label: the
comprehension of __str__ filters the table down to nothing and indexing it
fails. -/
theorem itemTypeLabel_ne_none (c : Char) (h : itemTypeLabel c ≠ none) :
    c ∈ (['N', 'T', 'E'] : List Char) := by
  by_contra hc
  simp only [List.mem_cons, List.not_mem_nil, or_false, not_or] at hc
  obtain ⟨h1, h2, h3⟩ := hc
  apply h
  have b1 : (('N' : Char) == c) = false := by
    cases hb : (('N' : Char) == c) with
    | false => rfl
    | true => exact absurd (beq_iff_eq.1 hb).symm h1
  have b2 : (('T' : Char) == c) = false := by
    cases hb : (('T' : Char) == c) with
    | false => rfl
    | true => exact absurd (beq_iff_eq.1 hb).symm h2
  have b3 : (('E' : Char) == c) = false := by
    cases hb : (('E' : Char) == c) with
    | false => rfl
    | true => exact absurd (beq_iff_eq.1 hb).symm h3
  simp [itemTypeLabel, ITEM_TYPES, List.filter_cons, b1, b2, b3]

/-- C10: JournalItem.__str__ is partial: it produces a string only when the
discriminator lies in {N, T, E} (otherwise the label comprehension indexes
an empty list and fails) and the generic reference resolves (otherwise the
title access fails on a missing object). Stated as: whenever rendering
succeeds, the discriminator is one of N, T, E and resolution succeeded; by
contraposition, a discriminator outside the set or a dangling reference
makes rendering fail. -/
theorem strJournalItem_defined_only_if (s : Store) (j : JournalItem)
    (h : (strJournalItem s j).isSome = true) :
    j.item_type ∈ (['N', 'T', 'E'] : List Char)
    ∧ (resolveContent s j).isSome = true := by
  cases hl : itemTypeLabel j.item_type with
  | none => simp [strJournalItem, hl] at h
  | some lbl =>
    cases hu : findUser s j.owner with
    | none => simp [strJournalItem, hl, hu] at h
    | some u =>
      cases hr : resolveContent s j with
      | none => simp [strJournalItem, hl, hu, hr] at h
      | some ce =>
        constructor
        · apply itemTypeLabel_ne_none
          rw [hl]
          exact Option.some_ne_none lbl
        · rfl

/-- Witness for C10 at the consistent demo row: its discriminator N is in
the table and its reference resolves. -/
theorem strJournalItem_defined_only_if_inst :
    demoJN.item_type ∈ (['N', 'T', 'E'] : List Char)
    ∧ (resolveContent demoStore demoJN).isSome = true :=
  strJournalItem_defined_only_if demoStore demoJN (by decide)

end Journals
